import Mathlib

/-!
Shallow embedding of `tools/modify_flat_prof.py` (flat-profile builder of the
rv32emu repository): folded-stack trace parsing, accumulation, flat-row
building, filtering, and the dual-trace (inst/cycle) merge.

Python `float` values (percentages, times, IPC/CPI) are modelled as exact
rationals `ℚ`; machine integers are `Int` (Python ints are unbounded, so no
wrap-around modelling is needed).  Python exceptions are modelled with
`Except PyError`; a raised `ValueError(msg)` becomes a structured `PyError`
constructor carrying the data interpolated into `msg`.
-/

/- Batteries marks the `Rat` arithmetic operations `@[irreducible]`, which
blocks `decide`/`rfl` evaluation of the embedding on concrete traces; restore
the default reducibility so concrete runs reduce. -/
set_option allowUnsafeReducibility true in
attribute [semireducible] Rat.mul Rat.add Rat.sub Rat.inv Rat.ofScientific

/-- The whitespace characters recognised by Python `str.strip()` /
`str.rsplit(None, 1)` (ASCII subset; the traces at issue are ASCII). -/
def pyIsSpace (c : Char) : Bool :=
  c = ' ' || c = '\t' || c = '\n' || c = '\r' || c = '\x0b' || c = '\x0c'

/-- Python `str.strip()` on a character list: drop leading and trailing
whitespace. -/
def stripChars (l : List Char) : List Char :=
  ((l.dropWhile pyIsSpace).reverse.dropWhile pyIsSpace).reverse

/-- Python `s.rsplit(None, 1)` for a string `s` that is already stripped:
either `[s]` (no whitespace anywhere in `s`), or `[left, right]` where
`right` is the substring after the last run of whitespace and `left` is the
part before that run. -/
def rsplitLast (s : List Char) : List (List Char) :=
  let rev := s.reverse
  let right := rev.takeWhile (fun c => !pyIsSpace c)
  let rest := rev.dropWhile (fun c => !pyIsSpace c)
  if rest.isEmpty then [s]
  else [(rest.dropWhile pyIsSpace).reverse, right.reverse]

/-- Python `str.split(";")` on a character list. -/
def splitSemi : List Char → List (List Char)
  | [] => [[]]
  | c :: rest =>
    let r := splitSemi rest
    if c = ';' then [] :: r
    else
      match r with
      | [] => [[c]]
      | h :: t => (c :: h) :: t

/-- Value of a list of decimal digit characters. -/
def digitsVal (l : List Char) : Nat :=
  l.foldl (fun a c => a * 10 + (c.toNat - '0'.toNat)) 0

/-- Python `int(s)` on a whitespace-free token: optional sign followed by a
non-empty run of decimal digits (the ASCII forms that occur in folded
traces); `none` models the raised `ValueError`. -/
def parsePyInt (l : List Char) : Option Int :=
  match l with
  | [] => none
  | c :: rest =>
    if c = '-' then
      if rest ≠ [] ∧ rest.all Char.isDigit then some (-(digitsVal rest : Int)) else none
    else if c = '+' then
      if rest ≠ [] ∧ rest.all Char.isDigit then some ((digitsVal rest : Int)) else none
    else if (c :: rest).all Char.isDigit then some ((digitsVal (c :: rest) : Int))
    else none

/-- The `ValueError`s raised by the flat-profile module, with the data the
Python code interpolates into each message:
* `malformedLine line` models `ValueError(f"bad line (missing count): {line!r}")`,
* `badCount tok line` models `ValueError(f"bad count: {tok!r} in line: {line!r}")`,
* `noFrames line` models `ValueError(f"bad line (no frames): {line!r}")`,
* `noSamples` models `ValueError("no samples")` raised by `build_flat`. -/
inductive PyError where
  | malformedLine (line : String)
  | badCount (tok : String) (line : String)
  | noFrames (line : String)
  | noSamples
  deriving DecidableEq, Repr

/-- `parse_folded_line` (modify_flat_prof.py lines 42-61): strip the line,
return `none` for a blank line, split off the count at the last whitespace
run, parse it as an integer, split the stack on `;` dropping empty frames. -/
def parse_folded_line (line : String) : Except PyError (Option (List String × Int)) :=
  let s := stripChars line.data
  if s.isEmpty then .ok none
  else
    match rsplitLast s with
    | [stack_str, count_str] =>
      match parsePyInt count_str with
      | none => .error (.badCount (String.mk count_str) line)
      | some count =>
        let frames := (splitSemi stack_str).filter (fun f => !f.isEmpty)
        if frames.isEmpty then .error (.noFrames line)
        else .ok (some (frames.map String.mk, count))
    | _ => .error (.malformedLine line)

instance {ε α : Type} [DecidableEq ε] [DecidableEq α] : DecidableEq (Except ε α) := fun
  | .ok a, .ok b =>
    if h : a = b then .isTrue (by rw [h]) else .isFalse (by intro hh; cases hh; exact h rfl)
  | .ok _, .error _ => .isFalse (by intro h; cases h)
  | .error _, .ok _ => .isFalse (by intro h; cases h)
  | .error a, .error b =>
    if h : a = b then .isTrue (by rw [h]) else .isFalse (by intro hh; cases hh; exact h rfl)

/-- Python dict update `m[k] = m.get(k, 0) + v` preserving insertion order:
add `v` to the existing entry for `k`, or append `(k, v)` at the end. -/
def updAdd (m : List (String × Int)) (k : String) (v : Int) : List (String × Int) :=
  match m with
  | [] => [(k, v)]
  | (k2, v2) :: rest => if k2 = k then (k2, v2 + v) :: rest else (k2, v2) :: updAdd rest k v

/-- Python `m.get(k, d)` on an insertion-ordered dict modelled as an
association list. -/
def lookupGetD (m : List (String × Int)) (k : String) (d : Int) : Int :=
  match m with
  | [] => d
  | (k2, v) :: rest => if k2 = k then v else lookupGetD rest k d

/-- `sum(m.values())` for a dict modelled as an association list. -/
def sumVals (m : List (String × Int)) : Int :=
  (m.map Prod.snd).sum

/-- State threaded through `accumulate`'s loop:
`(self_counts, total_counts, total_samples)`. -/
abbrev AccState : Type :=
  List (String × Int) × List (String × Int) × Int

/-- The loop of `accumulate` (modify_flat_prof.py lines 76-93), starting from
an arbitrary state.  A parse failure propagates (the Python exception aborts
the whole call); a `none` parse (blank line) leaves the state unchanged.
`frames.getLastD ""` models `frames[-1]`; the parser guarantees `frames` is
non-empty on every `.ok (some _)` result, so the default is never used. -/
def accumulateFrom (st : AccState) : List String → Except PyError AccState
  | [] => .ok st
  | line :: rest =>
    match parse_folded_line line with
    | .error e => .error e
    | .ok none => accumulateFrom st rest
    | .ok (some (frames, count)) =>
      let sc := updAdd st.1 (frames.getLastD "") count
      let tc := frames.foldl (fun m f => updAdd m f count) st.2.1
      accumulateFrom (sc, tc, st.2.2 + count) rest

/-- `accumulate` (modify_flat_prof.py lines 68-95): returns
`(self_counts, total_counts, total_samples)`. -/
def accumulate (lines : List String) : Except PyError AccState :=
  accumulateFrom ([], [], 0) lines

/-- `FlatRow` (modify_flat_prof.py lines 14-22), with floats as exact `ℚ`. -/
structure FlatRow where
  symbol : String
  self_count : Int
  total_count : Int
  percent : ℚ
  cum_percent : ℚ
  self_time : Option ℚ := none
  total_time : Option ℚ := none
  deriving DecidableEq, Repr

/-- The metadata dict returned by `build_flat` (modify_flat_prof.py lines
172-176): `total_samples` always, `clk_mhz`/`total_time_s` only when time is
enabled. -/
structure FlatMeta where
  total_samples : Int
  clk_mhz : Option ℚ := none
  total_time_s : Option ℚ := none
  deriving DecidableEq, Repr

/-- Python `<` on strings: strict code-point-lexicographic comparison of the
character sequences (the core list order on `String.data`). -/
def pyStrLt (a b : String) : Prop :=
  List.lt a.data b.data

/-- Python `<=` on strings: the non-strict companion of [pyStrLt]. -/
def pyStrLe (a b : String) : Prop :=
  ¬ List.lt b.data a.data

instance : DecidableRel pyStrLt := fun a b => by
  unfold pyStrLt; exact List.hasDecidableLt a.data b.data

instance : DecidableRel pyStrLe := fun a b => by
  unfold pyStrLe
  exact @instDecidableNot _ (List.hasDecidableLt b.data a.data)

theorem pyStrLe_total (a b : String) : pyStrLe a b ∨ pyStrLe b a := by
  by_cases h : List.lt b.data a.data
  · refine .inr fun h2 => ?_
    rw [List.lt_iff_lex_lt] at h h2
    exact asymm_of (List.Lex (fun x y : Char => x < y)) h h2
  · exact .inl h

theorem pyStrLe_trans (a b c : String) (h1 : pyStrLe a b) (h2 : pyStrLe b c) :
    pyStrLe a c := by
  intro h3
  rw [pyStrLe, List.lt_iff_lex_lt] at h1 h2
  rw [List.lt_iff_lex_lt] at h3
  rcases trichotomous_of (List.Lex (fun x y : Char => x < y)) b.data a.data with hba | hba | hba
  · exact h1 hba
  · rcases trichotomous_of (List.Lex (fun x y : Char => x < y)) c.data b.data with hcb | hcb | hcb
    · exact h2 hcb
    · exact irrefl_of (List.Lex (fun x y : Char => x < y)) _ (hcb ▸ hba ▸ h3)
    · exact asymm_of (List.Lex (fun x y : Char => x < y)) h3 (hba ▸ hcb)
  · rcases trichotomous_of (List.Lex (fun x y : Char => x < y)) c.data b.data with hcb | hcb | hcb
    · exact h2 hcb
    · exact asymm_of (List.Lex (fun x y : Char => x < y)) h3 (hcb ▸ hba)
    · exact asymm_of (List.Lex (fun x y : Char => x < y)) h3
        (trans_of (List.Lex (fun x y : Char => x < y)) hba hcb)

theorem pyStrLe_antisymm (a b : String) (h1 : pyStrLe a b) (h2 : pyStrLe b a) :
    a = b := by
  rw [pyStrLe, List.lt_iff_lex_lt] at h1 h2
  rcases trichotomous_of (List.Lex (fun x y : Char => x < y)) a.data b.data with h | h | h
  · exact absurd h h2
  · cases a; cases b; exact congrArg String.mk h
  · exact absurd h h1

/-- The sort key order of `build_flat`'s `rows.sort(key=lambda t: (-t[1], t[0]))`
on `(symbol, self, total)` triples: self count descending, then symbol name
ascending (Python tuple order on `(-self, symbol)`). -/
def flatKeyLe (a b : String × Int × Int) : Prop :=
  b.2.1 < a.2.1 ∨ (a.2.1 = b.2.1 ∧ pyStrLe a.1 b.1)

instance : DecidableRel flatKeyLe := fun a b => by
  unfold flatKeyLe; infer_instance

instance : IsTotal (String × Int × Int) flatKeyLe where
  total a b := by
    rcases lt_trichotomy a.2.1 b.2.1 with h | h | h
    · exact .inr (.inl h)
    · rcases pyStrLe_total a.1 b.1 with h2 | h2
      · exact .inl (.inr ⟨h, h2⟩)
      · exact .inr (.inr ⟨h.symm, h2⟩)
    · exact .inl (.inl h)

instance : IsTrans (String × Int × Int) flatKeyLe where
  trans a b c hab hbc := by
    rcases hab with h1 | ⟨h1, h1s⟩ <;> rcases hbc with h2 | ⟨h2, h2s⟩
    · exact .inl (h2.trans h1)
    · exact .inl (h2 ▸ h1)
    · exact .inl (h1 ▸ h2)
    · exact .inr ⟨h1.trans h2, pyStrLe_trans _ _ _ h1s h2s⟩

/-- The output loop of `build_flat` (modify_flat_prof.py lines 144-170):
walk the sorted `(symbol, self, total)` triples keeping the running
cumulative percentage; when `denom` is present also emit time fields. -/
def mkRows (denom : Option ℚ) (total_samples : Int) :
    List (String × Int × Int) → ℚ → List FlatRow
  | [], _ => []
  | (sym, self_c, total_c) :: rest, cum =>
    let pct := (self_c : ℚ) / (total_samples : ℚ) * 100
    let cum2 := cum + pct
    let row : FlatRow :=
      match denom with
      | some d =>
        { symbol := sym, self_count := self_c, total_count := total_c,
          percent := pct, cum_percent := cum2,
          self_time := some ((self_c : ℚ) / d), total_time := some ((total_c : ℚ) / d) }
      | none =>
        { symbol := sym, self_count := self_c, total_count := total_c,
          percent := pct, cum_percent := cum2 }
    row :: mkRows denom total_samples rest cum2

/-- `build_flat` (modify_flat_prof.py lines 117-177): reject a non-positive
grand total, pair each `self_counts` symbol with `total_counts.get(sym, 0)`,
sort by self count descending / symbol ascending, then annotate with
percentages, cumulative percentages and optional times.  `denom` is
`clk_mhz * 1e6` when `clk_mhz` is supplied and positive (`use_time`); the
Python truthiness test `if denom:` is then equivalent to `denom is not None`
since `denom > 0` whenever it is set. -/
def build_flat (self_counts total_counts : List (String × Int)) (total_samples : Int)
    (clk_mhz : Option ℚ) : Except PyError (List FlatRow × FlatMeta) :=
  if total_samples ≤ 0 then .error .noSamples
  else
    let rows := self_counts.map (fun p => (p.1, p.2, lookupGetD total_counts p.1 0))
    let sorted := rows.insertionSort flatKeyLe
    let denom : Option ℚ :=
      match clk_mhz with
      | some c => if 0 < c then some (c * 1000000) else none
      | none => none
    let out := mkRows denom total_samples sorted 0
    let meta : FlatMeta :=
      match clk_mhz, denom with
      | some c, some d =>
        { total_samples := total_samples, clk_mhz := some c,
          total_time_s := some ((total_samples : ℚ) / d) }
      | _, _ => { total_samples := total_samples }
    .ok (out, meta)

/-- `filter_rows` (modify_flat_prof.py lines 191-202): optional
self-percentage threshold, then optional top-`N` cap with `N` clamped to be
non-negative (`max(0, int(top))`). -/
def filter_rows (rows : List FlatRow) (top : Option Int) (thr_percent : Option ℚ) :
    List FlatRow :=
  let out := rows
  let out :=
    match thr_percent with
    | some t => out.filter (fun r => t ≤ r.percent)
    | none => out
  match top with
  | some n => out.take (max 0 n).toNat
  | none => out

/-- One entry of the combined table built by `combine_inst_cycle`
(modify_flat_prof.py lines 328-340); the Python dict keys become fields. -/
structure CombinedRow where
  symbol : String
  inst_self : Int
  inst_total : Int
  inst_percent : ℚ
  cycle_self : Int
  cycle_total : Int
  cycle_percent : ℚ
  ipc : Option ℚ
  cpi : Option ℚ
  deriving DecidableEq, Repr

/-- The metadata dict returned by `combine_inst_cycle` (modify_flat_prof.py
lines 349-356). -/
structure CombMeta where
  total_instructions : Int
  total_cycles : Int
  CPI : Option ℚ
  IPC : Option ℚ
  clk_mhz : Option ℚ
  total_time_s : Option ℚ
  deriving DecidableEq, Repr

/-- Dict lookup `{r.symbol: r for r in rows}[sym]`: with Python dict
comprehension semantics the last row with a given symbol wins. -/
def symLookup (rows : List FlatRow) (sym : String) : Option FlatRow :=
  rows.reverse.find? (fun r => r.symbol == sym)

/-- The body of `combine_inst_cycle`'s per-symbol loop (modify_flat_prof.py
lines 318-340): fields of an absent side default to zero; IPC/CPI each have
their own positivity guard. -/
def combineRow (inst_rows cyc_rows : List FlatRow) (sym : String) : CombinedRow :=
  let ir := symLookup inst_rows sym
  let cr := symLookup cyc_rows sym
  let inst_total : Int := match ir with | some r => r.total_count | none => 0
  let cyc_total : Int := match cr with | some r => r.total_count | none => 0
  { symbol := sym
    inst_self := match ir with | some r => r.self_count | none => 0
    inst_total := inst_total
    inst_percent := match ir with | some r => r.percent | none => 0
    cycle_self := match cr with | some r => r.self_count | none => 0
    cycle_total := cyc_total
    cycle_percent := match cr with | some r => r.percent | none => 0
    ipc := if 0 < cyc_total then some ((inst_total : ℚ) / (cyc_total : ℚ)) else none
    cpi := if 0 < inst_total then some ((cyc_total : ℚ) / (inst_total : ℚ)) else none }

/-- The sort key order of `combine_inst_cycle`'s
`combined.sort(key=lambda d: (-float(d["cycle_percent"]), str(d["symbol"])))`:
cycle percent descending, then symbol name ascending. -/
def combLe (a b : CombinedRow) : Prop :=
  b.cycle_percent < a.cycle_percent ∨
    (a.cycle_percent = b.cycle_percent ∧ pyStrLe a.symbol b.symbol)

instance : DecidableRel combLe := fun a b => by
  unfold combLe; infer_instance

instance : IsTotal CombinedRow combLe where
  total a b := by
    rcases lt_trichotomy a.cycle_percent b.cycle_percent with h | h | h
    · exact .inr (.inl h)
    · rcases pyStrLe_total a.symbol b.symbol with h2 | h2
      · exact .inl (.inr ⟨h, h2⟩)
      · exact .inr (.inr ⟨h.symm, h2⟩)
    · exact .inl (.inl h)

instance : IsTrans CombinedRow combLe where
  trans a b c hab hbc := by
    rcases hab with h1 | ⟨h1, h1s⟩ <;> rcases hbc with h2 | ⟨h2, h2s⟩
    · exact .inl (h2.trans h1)
    · exact .inl (h2 ▸ h1)
    · exact .inl (h1 ▸ h2)
    · exact .inr ⟨h1.trans h2, pyStrLe_trans _ _ _ h1s h2s⟩

/-- `sorted(set(inst_map) | set(cyc_map))` (modify_flat_prof.py line 312):
the distinct symbols of both row lists, in ascending string order. -/
def unionSyms (inst_rows cyc_rows : List FlatRow) : List String :=
  (((inst_rows.map FlatRow.symbol) ++ (cyc_rows.map FlatRow.symbol)).dedup).insertionSort
    pyStrLe

/-- `combine_inst_cycle` (modify_flat_prof.py lines 301-357): full outer join
of the two row lists on symbol name, ranked by cycle percent descending /
symbol ascending, then the optional cycle-percent threshold and the optional
top-`N` cap (clamped non-negative), in that order. -/
def combine_inst_cycle (inst_rows : List FlatRow) (inst_meta : FlatMeta)
    (cyc_rows : List FlatRow) (cyc_meta : FlatMeta)
    (top : Option Int) (thr_percent_cycle : Option ℚ) :
    List CombinedRow × CombMeta :=
  let syms := unionSyms inst_rows cyc_rows
  let combined := syms.map (combineRow inst_rows cyc_rows)
  let total_inst := inst_meta.total_samples
  let total_cyc := cyc_meta.total_samples
  let sorted := combined.insertionSort combLe
  let filtered :=
    match thr_percent_cycle with
    | some t => sorted.filter (fun d => t ≤ d.cycle_percent)
    | none => sorted
  let capped :=
    match top with
    | some n => filtered.take (max 0 n).toNat
    | none => filtered
  (capped,
    { total_instructions := total_inst
      total_cycles := total_cyc
      CPI := if 0 < total_inst then some ((total_cyc : ℚ) / (total_inst : ℚ)) else none
      IPC := if 0 < total_cyc then some ((total_inst : ℚ) / (total_cyc : ℚ)) else none
      clk_mhz := cyc_meta.clk_mhz
      total_time_s := cyc_meta.total_time_s })

/-- The dual-trace path of `main` (modify_flat_prof.py lines 436-455), with
file I/O abstracted to the two line lists: the primary trace is accumulated,
built, and **then filtered by `top`/`thr` (line 438) before the second-trace
branch**; the second trace is accumulated and built unfiltered; the two row
lists are handed to `combine_inst_cycle` with `top`/`thr_cycle`. -/
def mainCombined (lines1 lines2 : List String) (top : Option Int) (thr : Option ℚ)
    (clk1 clk2 : Option ℚ) (thr_cycle : Option ℚ) :
    Except PyError (List CombinedRow × CombMeta) := do
  let (t_self, t_total, t_sum) ← accumulate lines1
  let (t_rows, t_meta) ← build_flat t_self t_total t_sum clk1
  let t_rows := filter_rows t_rows top thr
  let (s_self, s_total, s_sum) ← accumulate lines2
  let (s_rows, s_meta) ← build_flat s_self s_total s_sum clk2
  return combine_inst_cycle t_rows t_meta s_rows s_meta top thr_cycle

/-- Count contributed by one line: the parsed count of a sample line, `0` for
a skipped (blank) line or a line that does not parse. -/
def lineCount (line : String) : Int :=
  match parse_folded_line line with
  | .ok (some (_, c)) => c
  | _ => 0

/-- Sample secondary-trace row for the C4 witness. -/
def cycRowA : FlatRow :=
  { symbol := "a", self_count := 2, total_count := 4, percent := 50, cum_percent := 50 }

/-- Sample secondary-trace row for the C5 witness. -/
def cycRowB : FlatRow :=
  { symbol := "b", self_count := 1, total_count := 5, percent := 100, cum_percent := 100 }


/-! ### Helper lemmas -/

theorem takeWhile_append_of_all {α : Type} (p : α → Bool) (l1 l2 : List α)
    (h : ∀ c ∈ l1, p c = true) : (l1 ++ l2).takeWhile p = l1 ++ l2.takeWhile p := by
  induction l1 with
  | nil => rfl
  | cons a l ih =>
    have ha : p a = true := h a (by simp)
    simp only [List.cons_append, List.takeWhile_cons, ha, if_true]
    rw [ih fun c hc => h c (by simp [hc])]

theorem dropWhile_append_of_all {α : Type} (p : α → Bool) (l1 l2 : List α)
    (h : ∀ c ∈ l1, p c = true) : (l1 ++ l2).dropWhile p = l2.dropWhile p := by
  induction l1 with
  | nil => rfl
  | cons a l ih =>
    have ha : p a = true := h a (by simp)
    simp only [List.cons_append, List.dropWhile_cons, ha, if_true]
    exact ih fun c hc => h c (by simp [hc])

theorem takeWhile_eq_self_of_all {α : Type} (p : α → Bool) (l : List α)
    (h : ∀ c ∈ l, p c = true) : l.takeWhile p = l := by
  have := takeWhile_append_of_all p l [] h
  simpa using this

theorem dropWhile_eq_nil_of_all {α : Type} (p : α → Bool) (l : List α)
    (h : ∀ c ∈ l, p c = true) : l.dropWhile p = [] := by
  have := dropWhile_append_of_all p l [] h
  simpa using this

/-- C9: a line that is non-blank after stripping but contains no whitespace
has no split point for the count, so `parse_folded_line` fails with the
`MalformedLine` error carrying that exact raw line. -/
theorem parse_no_whitespace_malformed (line : String)
    (h1 : stripChars line.data ≠ [])
    (h2 : ∀ c ∈ stripChars line.data, pyIsSpace c = false) :
    parse_folded_line line = .error (.malformedLine line) := by
  have hne : (stripChars line.data).isEmpty = false := by
    cases hsc : stripChars line.data with
    | nil => exact absurd hsc h1
    | cons a l => simp [List.isEmpty]
  have hall : ∀ c ∈ (stripChars line.data).reverse, (fun c => !pyIsSpace c) c = true := by
    intro c hc
    simp only [Bool.not_eq_true']
    exact h2 c (List.mem_reverse.mp hc)
  have hsplit : rsplitLast (stripChars line.data) = [stripChars line.data] := by
    simp only [rsplitLast]
    rw [dropWhile_eq_nil_of_all _ _ hall]
    rfl
  simp only [parse_folded_line, hne, Bool.false_eq_true, if_false, hsplit]

/-- C9 witness instance: the spec's own example `"onlyonetoken\n"`. -/
theorem parse_no_whitespace_malformed_witness :
    parse_folded_line "onlyonetoken\n" = .error (.malformedLine "onlyonetoken\n") :=
  parse_no_whitespace_malformed "onlyonetoken\n" (by decide) (by decide)

theorem space_not_digit (c : Char) (h : pyIsSpace c = true) : c.isDigit = false := by
  simp only [pyIsSpace, Bool.or_eq_true, decide_eq_true_eq] at h
  rcases h with ((((h | h) | h) | h) | h) | h <;> subst h <;> decide

theorem digit_not_space (c : Char) (h : c.isDigit = true) : pyIsSpace c = false := by
  cases hps : pyIsSpace c with
  | false => rfl
  | true => rw [space_not_digit c hps] at h; cases h

theorem parsePyInt_chars (tok : List Char) (n : Int) (h : parsePyInt tok = some n) :
    tok ≠ [] ∧ ∀ c ∈ tok, pyIsSpace c = false := by
  cases tok with
  | nil => simp [parsePyInt] at h
  | cons c0 rest =>
    refine ⟨by simp, ?_⟩
    rw [parsePyInt] at h
    split_ifs at h with h1 h2 h3 h4 h5
    · intro c hc
      rcases List.mem_cons.mp hc with rfl | hc
      · subst h1; decide
      · exact digit_not_space c (List.all_eq_true.mp h2.2 c hc)
    · intro c hc
      rcases List.mem_cons.mp hc with rfl | hc
      · subst h3; decide
      · exact digit_not_space c (List.all_eq_true.mp h4.2 c hc)
    · intro c hc
      exact digit_not_space c (List.all_eq_true.mp h5 c hc)

/-- C3 counterexample: a line whose count token is a negative integer is
accepted by the parser, returning a negative count. -/
theorem parse_accepts_negative_counterexample :
    parse_folded_line "a -5" = .ok (some (["a"], -5)) ∧ (-5 : Int) < 0 :=
  ⟨by decide, by decide⟩

/-- C3 (amended): the parser accepts any token that `int()` accepts —
including negative ones — and returns exactly that integer as the count; no
sign check is performed, so `count ≥ 0` is not guaranteed. -/
theorem parse_count_token_any_int (tok : List Char) (n : Int)
    (h : parsePyInt tok = some n) :
    parse_folded_line (String.mk ('a' :: ' ' :: tok)) = .ok (some (["a"], n)) := by
  obtain ⟨hne, hns⟩ := parsePyInt_chars tok n h
  have hall : ∀ c ∈ tok.reverse, (fun c => !pyIsSpace c) c = true := by
    intro c hc
    simp only [Bool.not_eq_true']
    exact hns c (List.mem_reverse.mp hc)
  have hrev : ('a' :: ' ' :: tok).reverse = tok.reverse ++ [' ', 'a'] := by simp
  have hstrip : stripChars ('a' :: ' ' :: tok) = 'a' :: ' ' :: tok := by
    unfold stripChars
    rw [List.dropWhile_cons]
    rw [show pyIsSpace 'a' = false from rfl]
    simp only [Bool.false_eq_true, if_false]
    rw [hrev]
    cases hrv : tok.reverse with
    | nil => exact absurd (by simpa using congrArg List.reverse hrv) hne
    | cons c l =>
      have hc : pyIsSpace c = false := by
        refine hns c ?_
        rw [← List.mem_reverse, hrv]
        simp
      have hlrev : (c :: l).reverse = tok := by rw [← hrv, List.reverse_reverse]
      rw [List.cons_append, List.dropWhile_cons, hc]
      simp only [Bool.false_eq_true, if_false]
      calc (c :: (l ++ [' ', 'a'])).reverse
          = 'a' :: ' ' :: (c :: l).reverse := by simp
        _ = 'a' :: ' ' :: tok := by rw [hlrev]
  have hsplit : rsplitLast ('a' :: ' ' :: tok) = [['a'], tok] := by
    simp only [rsplitLast]
    rw [hrev, takeWhile_append_of_all _ _ _ hall, dropWhile_append_of_all _ _ _ hall]
    simp
    rw [if_neg (by decide)]
    rfl
  show parse_folded_line ⟨'a' :: ' ' :: tok⟩ = .ok (some (["a"], n))
  simp only [parse_folded_line, hstrip, hsplit, h]
  rfl

/-- C3 witness: the amended theorem at the concrete token `"-5"`. -/
theorem parse_count_token_any_int_witness :
    parse_folded_line (String.mk ('a' :: ' ' :: ['-', '5'])) = .ok (some (["a"], -5)) :=
  parse_count_token_any_int ['-', '5'] (-5) (by decide)

/-- C2 counterexample: on an all-blank input the accumulator returns a result
(`grand_total = 0`) instead of failing. -/
theorem accumulate_blank_returns :
    accumulate [""] = .ok ([], [], 0) := by decide

/-- C2 (amended): the accumulator itself returns normally even when the grand
total is not positive; the `grand_total ≤ 0` check lives in `build_flat`,
which fails with the "no samples" error instead of returning rows. -/
theorem build_flat_no_samples (self_counts total_counts : List (String × Int))
    (total_samples : Int) (clk_mhz : Option ℚ) (h : total_samples ≤ 0) :
    build_flat self_counts total_counts total_samples clk_mhz = .error .noSamples := by
  rw [build_flat.eq_def, if_pos h]

/-- C2 witness: `build_flat` on the state the accumulator returns for an
all-blank trace. -/
theorem build_flat_no_samples_witness :
    build_flat [] [] 0 none = .error .noSamples :=
  build_flat_no_samples [] [] 0 none (by decide)

/-- C8: the row filter applies the percentage threshold first, then the
count cap clamped to be non-negative (a negative cap yields `[]`), and its
output is always an order-preserving subsequence of its input. -/
theorem filter_rows_spec (rows : List FlatRow) (t : ℚ) (n : Int)
    (otop : Option Int) (othr : Option ℚ) :
    filter_rows rows (some n) (some t) =
        ((rows.filter (fun r => t ≤ r.percent)).take (max 0 n).toNat)
      ∧ filter_rows rows none (some t) = rows.filter (fun r => t ≤ r.percent)
      ∧ filter_rows rows (some n) none = rows.take (max 0 n).toNat
      ∧ filter_rows rows none none = rows
      ∧ (n < 0 → filter_rows rows (some n) othr = [])
      ∧ (filter_rows rows otop othr).Sublist rows := by
  refine ⟨rfl, rfl, rfl, rfl, ?_, ?_⟩
  · intro hn
    have hz : (max 0 n).toNat = 0 := by
      rw [Int.toNat_eq_zero]
      omega
    cases othr <;> simp [filter_rows, hz]
  · have hf : ∀ l : List FlatRow,
        (match othr with
          | some t2 => l.filter (fun r : FlatRow => t2 ≤ r.percent)
          | none => l).Sublist l := by
      intro l
      cases othr
      · exact List.Sublist.refl l
      · exact List.filter_sublist l
    cases otop with
    | none => exact hf rows
    | some m => exact (List.take_sublist _ _).trans (hf rows)

/-- C8 witness: the negative-cap clause at a concrete row list. -/
theorem filter_rows_spec_witness :
    filter_rows [{ symbol := "a", self_count := 1, total_count := 1,
                   percent := 100, cum_percent := 100 }] (some (-1)) none = [] :=
  (filter_rows_spec _ 50 (-1) (some 2) none).2.2.2.2.1 (by decide)

theorem sumVals_updAdd (m : List (String × Int)) (k : String) (v : Int) :
    sumVals (updAdd m k v) = sumVals m + v := by
  induction m with
  | nil => simp [updAdd, sumVals]
  | cons p rest ih =>
    obtain ⟨k2, v2⟩ := p
    by_cases hk : k2 = k
    · simp [updAdd, hk, sumVals]
      ring
    · simp [updAdd, hk, sumVals] at ih ⊢
      omega

theorem accumulateFrom_sums (lines : List String) :
    ∀ st sc tc n, accumulateFrom st lines = .ok (sc, tc, n) →
      sumVals sc = sumVals st.1 + (lines.map lineCount).sum ∧
      n = st.2.2 + (lines.map lineCount).sum := by
  induction lines with
  | nil =>
    intro st sc tc n h
    rw [accumulateFrom] at h
    injection h with h
    subst h
    simp
  | cons line rest ih =>
    intro st sc tc n h
    rw [accumulateFrom] at h
    cases hp : parse_folded_line line with
    | error e => rw [hp] at h; cases h
    | ok v =>
      cases v with
      | none =>
        rw [hp] at h
        have := ih st sc tc n h
        simpa [lineCount, hp] using this
      | some fc =>
        obtain ⟨frames, count⟩ := fc
        rw [hp] at h
        have := ih _ sc tc n h
        rw [sumVals_updAdd] at this
        simp only [lineCount, hp, List.map_cons, List.sum_cons]
        obtain ⟨h1, h2⟩ := this
        constructor
        · rw [h1]; ring
        · rw [h2]; ring

theorem accumulateFrom_skip (b : String) (hb : parse_folded_line b = .ok none)
    (pre : List String) : ∀ st post,
    accumulateFrom st (pre ++ b :: post) = accumulateFrom st (pre ++ post) := by
  induction pre with
  | nil =>
    intro st post
    show accumulateFrom st (b :: post) = accumulateFrom st post
    rw [accumulateFrom, hb]
  | cons l pre ih =>
    intro st post
    show accumulateFrom st (l :: (pre ++ b :: post)) = accumulateFrom st (l :: (pre ++ post))
    rw [accumulateFrom, accumulateFrom]
    cases hp : parse_folded_line l with
    | error e => rfl
    | ok v =>
      cases v with
      | none => exact ih st post
      | some fc => exact ih _ post

/-- C7: when the accumulator succeeds, the self counts sum to the grand
total, the grand total is the sum of the counts of the sample lines (blank
lines contributing nothing), and deleting a blank line from the trace leaves
the whole accumulator result unchanged. -/
theorem accumulate_totals (lines : List String)
    (sc tc : List (String × Int)) (n : Int)
    (h : accumulate lines = .ok (sc, tc, n)) :
    (sumVals sc = n ∧ n = (lines.map lineCount).sum) ∧
      ∀ pre post b, lines = pre ++ b :: post → parse_folded_line b = .ok none →
        accumulate (pre ++ post) = .ok (sc, tc, n) := by
  constructor
  · obtain ⟨h1, h2⟩ := accumulateFrom_sums lines ([], [], 0) sc tc n h
    have h0 : sumVals ((([], [], 0) : AccState)).1 = 0 := rfl
    have h3 : ((([], [], 0) : AccState)).2.2 = 0 := rfl
    rw [h0] at h1
    rw [h3] at h2
    exact ⟨by omega, by omega⟩
  · intro pre post b hl hb
    rw [accumulate, ← accumulateFrom_skip b hb pre ([], [], 0) post, ← hl]
    exact h

/-- C7 witness: the invariants at a concrete three-line trace with a blank
line. -/
theorem accumulate_totals_witness :
    sumVals [("a", 2), ("b", 3)] = 5 ∧
      (5 : Int) = ((["a 2", "", "b 3"].map lineCount).sum) :=
  (accumulate_totals ["a 2", "", "b 3"] [("a", 2), ("b", 3)] [("a", 2), ("b", 3)] 5
    (by decide)).1

theorem mkRows_proj (denom : Option ℚ) (ts : Int) :
    ∀ (l : List (String × Int × Int)) (cum : ℚ),
      (mkRows denom ts l cum).map (fun r => (r.symbol, r.self_count, r.total_count)) = l := by
  intro l
  induction l with
  | nil => intro cum; rfl
  | cons x rest ih =>
    intro cum
    obtain ⟨sym, self_c, total_c⟩ := x
    cases denom <;> simp [mkRows, ih]

theorem lookupGetD_not_mem (m : List (String × Int)) (k : String) (d : Int)
    (h : k ∉ m.map Prod.fst) : lookupGetD m k d = d := by
  induction m with
  | nil => rfl
  | cons p rest ih =>
    obtain ⟨k2, v⟩ := p
    simp only [List.map_cons, List.mem_cons, not_or] at h
    rw [lookupGetD]
    rw [if_neg (fun hk => h.1 hk.symm)]
    exact ih h.2

/-- C6: the rows produced by `build_flat` are totally ordered by self count
descending, ties broken by symbol name ascending: every adjacent pair
`(a, b)` satisfies `a.self_count > b.self_count` or
(`a.self_count = b.self_count` and `a.symbol ≤ b.symbol` in Python string
order). -/
theorem build_flat_sorted (sc tc : List (String × Int)) (ts : Int) (clk : Option ℚ)
    (rows : List FlatRow) (meta : FlatMeta)
    (h : build_flat sc tc ts clk = .ok (rows, meta)) :
    List.Chain' (fun a b => b.self_count < a.self_count ∨
      (a.self_count = b.self_count ∧ pyStrLe a.symbol b.symbol)) rows := by
  rw [build_flat.eq_def] at h
  split_ifs at h with hts
  cases h
  have hsorted :=
    List.sorted_insertionSort flatKeyLe
      (sc.map (fun p => (p.1, p.2, lookupGetD tc p.1 0)))
  rw [← mkRows_proj
      (match clk with
        | some c => if 0 < c then some (c * 1000000) else none
        | none => none) ts
      (List.insertionSort flatKeyLe (sc.map (fun p => (p.1, p.2, lookupGetD tc p.1 0)))) 0]
    at hsorted
  exact ((List.pairwise_map.mp hsorted).imp fun hab => hab).chain'

/-- C6 witness: the order property at a concrete one-symbol build. -/
theorem build_flat_sorted_witness :
    List.Chain' (fun a b : FlatRow => b.self_count < a.self_count ∨
      (a.self_count = b.self_count ∧ pyStrLe a.symbol b.symbol))
      [{ symbol := "a", self_count := 1, total_count := 0,
         percent := 100, cum_percent := 100 }] :=
  build_flat_sorted [("a", 1)] [] 1 none _ { total_samples := 1 } (by decide)

/-- C10: a symbol present in `self_counts` but absent from `total_counts`
still yields a row, whose `total_count` is `0`, rather than an error. -/
theorem build_flat_missing_total (sc tc : List (String × Int)) (ts : Int)
    (clk : Option ℚ) (sym : String) (v : Int) (hts : 0 < ts)
    (hmem : (sym, v) ∈ sc) (habs : sym ∉ tc.map Prod.fst) :
    ∃ rows meta, build_flat sc tc ts clk = .ok (rows, meta) ∧
      ∃ r ∈ rows, r.symbol = sym ∧ r.self_count = v ∧ r.total_count = 0 := by
  have hne : ¬ ts ≤ 0 := by omega
  simp only [build_flat, if_neg hne]
  refine ⟨_, _, rfl, ?_⟩
  have hlook : lookupGetD tc sym 0 = 0 := lookupGetD_not_mem tc sym 0 habs
  have hpre : (sym, v, 0) ∈ sc.map (fun p => (p.1, p.2, lookupGetD tc p.1 0)) := by
    refine List.mem_map.mpr ⟨(sym, v), hmem, ?_⟩
    simp [hlook]
  have hmemsort : (sym, v, 0) ∈
      List.insertionSort flatKeyLe (sc.map (fun p => (p.1, p.2, lookupGetD tc p.1 0))) :=
    (List.perm_insertionSort flatKeyLe _).mem_iff.mpr hpre
  have hout := mkRows_proj
    (match clk with
      | some c => if 0 < c then some (c * 1000000) else none
      | none => none) ts
    (List.insertionSort flatKeyLe (sc.map (fun p => (p.1, p.2, lookupGetD tc p.1 0)))) 0
  rw [← hout] at hmemsort
  obtain ⟨r, hr, hreq⟩ := List.mem_map.mp hmemsort
  refine ⟨r, hr, ?_⟩
  rw [Prod.mk.injEq, Prod.mk.injEq] at hreq
  exact ⟨hreq.1, hreq.2.1, hreq.2.2⟩

/-- C10 witness: concrete instance with `"a"` absent from the total counts. -/
theorem build_flat_missing_total_witness :
    ∃ rows meta, build_flat [("a", 1)] [("b", 2)] 1 none = .ok (rows, meta) ∧
      ∃ r ∈ rows, r.symbol = "a" ∧ r.self_count = 1 ∧ r.total_count = 0 :=
  build_flat_missing_total [("a", 1)] [("b", 2)] 1 none "a" 1 (by decide) (by decide)
    (by decide)

theorem combineRow_symbol (a b : List FlatRow) (s : String) :
    (combineRow a b s).symbol = s := rfl

theorem unionSyms_mem (ir cr : List FlatRow) (s : String) :
    s ∈ unionSyms ir cr ↔ s ∈ ir.map FlatRow.symbol ∨ s ∈ cr.map FlatRow.symbol := by
  unfold unionSyms
  rw [(List.perm_insertionSort pyStrLe _).mem_iff, List.mem_dedup, List.mem_append]

theorem symLookup_eq_none (rows : List FlatRow) (s : String)
    (h : s ∉ rows.map FlatRow.symbol) : symLookup rows s = none := by
  unfold symLookup
  rw [List.find?_eq_none]
  intro r hr hps
  exact h (List.mem_map.mpr ⟨r, List.mem_reverse.mp hr, by simpa using hps⟩)

theorem combine_mem (ir : List FlatRow) (im : FlatMeta) (cr : List FlatRow)
    (cm : FlatMeta) (top : Option Int) (thr : Option ℚ) (row : CombinedRow)
    (h : row ∈ (combine_inst_cycle ir im cr cm top thr).1) :
    ∃ s ∈ unionSyms ir cr, row = combineRow ir cr s := by
  have h1 : row ∈
      List.insertionSort combLe (List.map (combineRow ir cr) (unionSyms ir cr)) := by
    simp only [combine_inst_cycle] at h
    cases top with
    | none =>
      cases thr with
      | none => exact h
      | some t => exact List.mem_of_mem_filter h
    | some n =>
      cases thr with
      | none => exact List.mem_of_mem_take h
      | some t => exact List.mem_of_mem_filter (List.mem_of_mem_take h)
  have h2 : row ∈ List.map (combineRow ir cr) (unionSyms ir cr) :=
    (List.perm_insertionSort combLe _).mem_iff.mp h1
  obtain ⟨s, hs, heq⟩ := List.mem_map.mp h2
  exact ⟨s, hs, heq.symm⟩

/-- C4: with no post-merge filters the merged table's symbols are exactly the
union of the two input row sets' symbols, and — under any filters — a row
whose symbol is absent from one side has all of that side's count and
percentage fields equal to zero. -/
theorem combine_union_zeros (ir : List FlatRow) (im : FlatMeta) (cr : List FlatRow)
    (cm : FlatMeta) :
    (∀ s, s ∈ (combine_inst_cycle ir im cr cm none none).1.map CombinedRow.symbol ↔
        s ∈ ir.map FlatRow.symbol ∨ s ∈ cr.map FlatRow.symbol) ∧
    (∀ top thr row, row ∈ (combine_inst_cycle ir im cr cm top thr).1 →
      (row.symbol ∉ ir.map FlatRow.symbol →
        row.inst_self = 0 ∧ row.inst_total = 0 ∧ row.inst_percent = 0) ∧
      (row.symbol ∉ cr.map FlatRow.symbol →
        row.cycle_self = 0 ∧ row.cycle_total = 0 ∧ row.cycle_percent = 0)) := by
  constructor
  · intro s
    have hc : (combine_inst_cycle ir im cr cm none none).1 =
        List.insertionSort combLe (List.map (combineRow ir cr) (unionSyms ir cr)) := rfl
    rw [hc, ((List.perm_insertionSort combLe _).map CombinedRow.symbol).mem_iff,
      List.map_map]
    have hid : (CombinedRow.symbol ∘ combineRow ir cr) = id := funext fun s2 => rfl
    rw [hid, List.map_id]
    exact unionSyms_mem ir cr s
  · intro top thr row hrow
    obtain ⟨s, hs, rfl⟩ := combine_mem ir im cr cm top thr row hrow
    constructor
    · intro habs
      have hn : symLookup ir s = none :=
        symLookup_eq_none ir s (by rwa [combineRow_symbol] at habs)
      simp [combineRow, hn]
    · intro habs
      have hn : symLookup cr s = none :=
        symLookup_eq_none cr s (by rwa [combineRow_symbol] at habs)
      simp [combineRow, hn]

/-- C4 witness: a symbol present only in the secondary trace appears in the
merged table with all primary fields zero. -/
theorem combine_union_zeros_witness :
    (combineRow [] [cycRowA] "a").inst_self = 0 ∧
    (combineRow [] [cycRowA] "a").inst_total = 0 ∧
    (combineRow [] [cycRowA] "a").inst_percent = 0 :=
  ((combine_union_zeros [] { total_samples := 0 } [cycRowA] { total_samples := 8 }).2
    none none _ (by decide)).1 (by decide)

/-- C5: in every merged row, IPC is present exactly when the cycle total is
positive (with value inst_total / cycle_total) and CPI is present exactly
when the instruction total is positive (with value cycle_total / inst_total);
the two guards are independent. -/
theorem combine_ipc_cpi (ir : List FlatRow) (im : FlatMeta) (cr : List FlatRow)
    (cm : FlatMeta) (top : Option Int) (thr : Option ℚ) (row : CombinedRow)
    (h : row ∈ (combine_inst_cycle ir im cr cm top thr).1) :
    row.ipc = (if 0 < row.cycle_total
      then some ((row.inst_total : ℚ) / (row.cycle_total : ℚ)) else none) ∧
    row.cpi = (if 0 < row.inst_total
      then some ((row.cycle_total : ℚ) / (row.inst_total : ℚ)) else none) := by
  obtain ⟨s, hs, rfl⟩ := combine_mem ir im cr cm top thr row h
  exact ⟨rfl, rfl⟩

/-- C5 witness: a symbol with cycle samples but no instruction samples has
IPC defined (zero) and CPI absent. -/
theorem combine_ipc_cpi_witness :
    (combineRow [] [cycRowB] "b").ipc =
      (if 0 < (combineRow [] [cycRowB] "b").cycle_total
        then some (((combineRow [] [cycRowB] "b").inst_total : ℚ) /
          ((combineRow [] [cycRowB] "b").cycle_total : ℚ)) else none) ∧
    (combineRow [] [cycRowB] "b").cpi =
      (if 0 < (combineRow [] [cycRowB] "b").inst_total
        then some (((combineRow [] [cycRowB] "b").cycle_total : ℚ) /
          ((combineRow [] [cycRowB] "b").inst_total : ℚ)) else none) :=
  combine_ipc_cpi [] { total_samples := 0 } [cycRowB] { total_samples := 5 }
    none none _ (by decide)

set_option maxRecDepth 40000 in
/-- C1: the dual-trace path of `main` does NOT pass the unfiltered primary
rows into the merger: `filter_rows` runs on the primary rows (line 438)
before the second-trace branch, contradicting the deferred-filtering
requirement and the code's own comment at line 449.  With primary trace
`["b 99", "a 1"]`, `--thr 50`, and secondary trace `["a 100", "b 100"]`, the
merged row for `"a"` carries `inst_total = 0` although the primary trace
recorded 1 instruction sample for `"a"`; with no threshold the same pipeline
yields `inst_total = 1` for `"a"`, isolating the premature filter as the
cause. -/
theorem main_combined_filters_primary_first :
    (mainCombined ["b 99", "a 1"] ["a 100", "b 100"] none (some 50) none none none).map
        (fun p => p.1.map (fun r => (r.symbol, r.inst_total, r.cycle_total))) =
      .ok [("a", 0, 100), ("b", 99, 100)] ∧
    (mainCombined ["b 99", "a 1"] ["a 100", "b 100"] none none none none none).map
        (fun p => p.1.map (fun r => (r.symbol, r.inst_total, r.cycle_total))) =
      .ok [("a", 1, 100), ("b", 99, 100)] := by
  constructor <;> decide
